import Mathlib

/-!
A shallow embedding of the wallpaper cache of `wallhaven_dl`
(`src/wallhaven/cache.go` together with the cache constants of
`constants/constants.go`), and proofs about it.

The SQLite database is modelled as explicit lists of rows kept in insertion
(rowid) order; the filesystem is modelled as an association list from paths to
file contents, since every read path of the cache re-checks file existence with
`os.Stat`.  Clock reads (`time.Now()`) become explicit `Nat` parameters.
The SHA-256 digests of `CalculateFileHash` and `GenerateID` are modelled by
abstract deterministic (and, in the model, injective) encodings: the only
property of the digest the cache relies on is that equal inputs hash equally.
-/

/-! ### Concrete scenario states used by the claims -/

/-- One row of the `wallpapers` table (the columns scanned by every query in
`cache.go`; `id` is declared `TEXT PRIMARY KEY`). -/
structure WallpaperRow where
  id : String
  path : String
  originalURL : String
  hash : Nat
  size : Nat
  downloadedAt : Nat
  lastUsed : Nat
  useCount : Nat
  categories : String
  purities : String
  resolution : String
  isFavorite : Bool
  rating : Int
deriving DecidableEq

/-- The value the read queries return: a `WallpaperRow` scanned into
`WallpaperMetadata`, with its `Tags` field filled in by `getTags`. -/
structure WallpaperMetadata where
  w : WallpaperRow
  tags : List String
deriving DecidableEq

/-- The whole database: the `wallpapers`, `wallpaper_tags` and `usage_history`
tables in rowid order, plus the single `view_state` row (its
`current_wallpaper_id`; the `updated_at` column is written but never read). -/
structure CacheState where
  wallpapers : List WallpaperRow
  wallpaper_tags : List (String × String)
  usage_history : List (String × Nat)
  viewState : Option String
deriving DecidableEq

/-- The filesystem: an association list from paths to file bytes. -/
abbrev Fs : Type := List (String × List Nat)

/-- The `os.Stat` succeeding: the path is present in the filesystem. -/
def fileExists (fs : Fs) (p : String) : Bool :=
  (List.lookup p fs).isSome

/-- The `os.Remove` (removing an absent file is treated as the tolerated
`IsNotExist` case). -/
def removeFile (fs : Fs) (p : String) : Fs :=
  List.filter (fun e => e.1 != p) fs

/-- The error outcomes of the cache operations. -/
inductive CacheErr where
  | notFound
  | invalidArgument
  | duplicateID
  | fileError
  | storageFailure
deriving DecidableEq

/-- The `constants.MaxCacheSize`. -/
def MaxCacheSize : Nat := 1000

/-- The `constants.MaxCacheSizeMB`. -/
def MaxCacheSizeMB : Nat := 5000

/-- The `constants.MinRating`. -/
def MinRating : Int := 1

/-- The `constants.MaxRating`. -/
def MaxRating : Int := 5

/-- The `int64(constants.MaxCacheSizeMB) * 1024 * 1024` — the byte cap. -/
def maxCacheBytes : Int := (MaxCacheSizeMB : Int) * 1024 * 1024

/-- The `constants.MaxCacheSize * 90 / 100` — the count eviction target. -/
def targetCount : Int := (MaxCacheSize : Int) * 90 / 100

/-- The `int64(constants.MaxCacheSizeMB) * 1024 * 1024 * 90 / 100` — the size
eviction target. -/
def targetSize : Int := (MaxCacheSizeMB : Int) * 1024 * 1024 * 90 / 100

/-- The digest of `CalculateFileHash`, as a function of the file bytes.
SHA-256 itself is outside the model; all the cache relies on is that the
digest is a deterministic function of the bytes, so it is modelled by an
injective base-256 encoding. -/
def hashBytes (bytes : List Nat) : Nat :=
  bytes.foldl (fun acc b => acc * 256 + b % 256) 1

/-- The `CalculateFileHash`: open the file, hash its contents, return digest and
byte size. Fails when the file does not exist. -/
def CalculateFileHash (fs : Fs) (filePath : String) : Except CacheErr (Nat × Nat) :=
  match List.lookup filePath fs with
  | none => .error .fileError
  | some bytes => .ok (hashBytes bytes, bytes.length)

/-- The `GenerateID`: a deterministic id derived from the remote URL
(a truncated SHA-256 hex string in the source, modelled by a deterministic
injective encoding of the URL). -/
def GenerateID (url : String) : String :=
  "w" ++ url

/-- The `getTags`: `SELECT tag FROM wallpaper_tags WHERE wallpaper_id = ?`. -/
def getTags (s : CacheState) (wallpaperID : String) : List String :=
  (s.wallpaper_tags.filter (fun p => p.1 == wallpaperID)).map Prod.snd

/-- The `SELECT ... FROM wallpapers WHERE id = ?` (first matching row). -/
def lookupWallpaper (s : CacheState) (id : String) : Option WallpaperRow :=
  s.wallpapers.find? (fun w => w.id == id)

/-- The `used_at` values of the usage events of one wallpaper. -/
def usedTimes (s : CacheState) (id : String) : List Nat :=
  (s.usage_history.filter (fun e => e.1 == id)).map Prod.snd

/-- The `MAX(used_at)` over one wallpaper's usage events (0 when there are none;
only ever compared for ids that do have events). -/
def lastSeen (s : CacheState) (id : String) : Nat :=
  (usedTimes s id).foldl Nat.max 0

/-- The `SELECT MAX(used_at) FROM usage_history WHERE wallpaper_id = ?`:
`NULL` (here `none`) when the wallpaper has no usage events. -/
def lastSeenOpt (s : CacheState) (id : String) : Option Nat :=
  if (usedTimes s id).isEmpty then none else some (lastSeen s id)

/-- The distinct wallpaper ids of `usage_history` (`GROUP BY wallpaper_id`). -/
def historyIds (s : CacheState) : List String :=
  (s.usage_history.map Prod.fst).dedup

/-- The `ORDER BY key DESC LIMIT 1`: an element with the greatest key (SQLite
leaves ties unspecified; the model resolves them deterministically). -/
def argmaxBy (f : α → Nat) : List α → Option α
  | [] => none
  | x :: xs =>
    match argmaxBy f xs with
    | none => some x
    | some y => if f x < f y then some y else some x

/-- The `ORDER BY key ASC LIMIT 1`: an element with the least key. -/
def argminBy (f : α → Nat) : List α → Option α
  | [] => none
  | x :: xs =>
    match argminBy f xs with
    | none => some x
    | some y => if f y < f x then some y else some x

/-- The `SELECT wallpaper_id FROM usage_history GROUP BY wallpaper_id
ORDER BY MAX(used_at) DESC LIMIT 1`. -/
def topHistoryId (s : CacheState) : Option String :=
  argmaxBy (lastSeen s) (historyIds s)

/-- The same query with `OFFSET 1`: the distinct id with the second-greatest
`MAX(used_at)`. -/
def secondTopHistoryId (s : CacheState) : Option String :=
  match topHistoryId s with
  | none => none
  | some top => argmaxBy (lastSeen s) ((historyIds s).filter (fun id => id != top))

/-- The metadata-loading block shared by the navigation reads: fetch the row
by id, `os.Stat` its path (returning nothing if the file is missing), and
attach its tags. -/
def loadMeta (s : CacheState) (fs : Fs) (wallpaperID : String) : Option WallpaperMetadata :=
  match lookupWallpaper s wallpaperID with
  | none => none
  | some r => if fileExists fs r.path then some ⟨r, getTags s r.id⟩ else none

/-- The `GetCurrent`: the most recently used wallpaper; `nil` if its file is
missing. -/
def GetCurrent (s : CacheState) (fs : Fs) : Option WallpaperMetadata :=
  (topHistoryId s).bind (loadMeta s fs)

/-- The `GetCurrentView`: the view-state pointer, `""` when unset. -/
def GetCurrentView (s : CacheState) : String :=
  s.viewState.getD ""

/-- The `SetCurrentView`: upsert of the single `view_state` row. -/
def SetCurrentView (s : CacheState) (wallpaperID : String) : CacheState :=
  { s with viewState := some wallpaperID }

/-- The `GetNext`: with no view pointer, the most recent wallpaper from history;
otherwise the distinct wallpaper with the least `MAX(used_at)` among those
whose `MAX(used_at)` exceeds the pointer's. -/
def GetNext (s : CacheState) (fs : Fs) : Option WallpaperMetadata :=
  let currentViewID := s.viewState.getD ""
  if currentViewID == "" then
    (topHistoryId s).bind (loadMeta s fs)
  else
    match lastSeenOpt s currentViewID with
    | none => none
    | some l =>
      let candidates := (historyIds s).filter (fun id => l < lastSeen s id)
      (argminBy (lastSeen s) candidates).bind (loadMeta s fs)

/-- The `GetPrevious`: with no view pointer, the second most recent wallpaper;
otherwise the distinct wallpaper with the greatest `MAX(used_at)` among those
whose `MAX(used_at)` is below the pointer's. -/
def GetPrevious (s : CacheState) (fs : Fs) : Option WallpaperMetadata :=
  let currentViewID := s.viewState.getD ""
  if currentViewID == "" then
    (secondTopHistoryId s).bind (loadMeta s fs)
  else
    match lastSeenOpt s currentViewID with
    | none => none
    | some l =>
      let candidates := (historyIds s).filter (fun id => lastSeen s id < l)
      (argmaxBy (lastSeen s) candidates).bind (loadMeta s fs)

/-- The `GetByID`. -/
def GetByID (s : CacheState) (fs : Fs) (id : String) : Option WallpaperMetadata :=
  loadMeta s fs id

/-- The `FindDuplicate`: the first row with the given hash, `nil` if its file is
missing. -/
def FindDuplicate (s : CacheState) (fs : Fs) (hash : Nat) : Option WallpaperMetadata :=
  match s.wallpapers.find? (fun w => w.hash == hash) with
  | none => none
  | some r => if fileExists fs r.path then some ⟨r, getTags s r.id⟩ else none

/-- The body of `scanWallpapers` for one row: skip it when its file is
missing, otherwise attach its tags. -/
def scanRow (s : CacheState) (fs : Fs) (r : WallpaperRow) : Option WallpaperMetadata :=
  if fileExists fs r.path then some ⟨r, getTags s r.id⟩ else none

/-- The distinct history ids ordered by `MAX(used_at) DESC`. -/
def historySortedIds (s : CacheState) : List String :=
  List.insertionSort (fun a b => lastSeen s b ≤ lastSeen s a) (historyIds s)

/-- The `GetHistory`: distinct used wallpapers, most recent first, default limit 50
when the given limit is `≤ 0`; rows whose file is missing are skipped. -/
def GetHistory (s : CacheState) (fs : Fs) (limit : Int) : List WallpaperMetadata :=
  let lim : Nat := if limit ≤ 0 then 50 else limit.toNat
  ((((historySortedIds s).filterMap (lookupWallpaper s)).take lim).filterMap (scanRow s fs))

/-- The `GetByTags`: wallpapers whose count of distinct tags within the query list
equals the raw length of the query list, ordered by `last_used DESC`;
an empty query returns nothing. -/
def GetByTags (s : CacheState) (fs : Fs) (tags : List String) : List WallpaperMetadata :=
  if tags.isEmpty then []
  else
    let rowsFound := s.wallpapers.filter
      (fun w => ((getTags s w.id).filter (fun t => tags.contains t)).dedup.length == tags.length)
    (List.insertionSort (fun a b => b.lastUsed ≤ a.lastUsed) rowsFound).filterMap (scanRow s fs)

/-- The `DELETE FROM wallpapers WHERE id = ?`, with the `ON DELETE CASCADE`
clauses of the schema removing the wallpaper's tag rows and usage events. -/
def deleteWallpaper (s : CacheState) (id : String) : CacheState :=
  { s with
    wallpapers := s.wallpapers.filter (fun w => w.id != id),
    wallpaper_tags := s.wallpaper_tags.filter (fun p => p.1 != id),
    usage_history := s.usage_history.filter (fun e => e.1 != id) }

/-- The `SELECT COUNT(*) FROM wallpapers`. -/
def totalCount (s : CacheState) : Nat :=
  s.wallpapers.length

/-- The `COALESCE(SUM(size), 0)` over `wallpapers`. -/
def totalSize (s : CacheState) : Nat :=
  (s.wallpapers.map (fun w => w.size)).sum

/-- The eviction scan: non-favorite rows ordered by `last_used ASC`. -/
def evictionCandidates (s : CacheState) : List WallpaperRow :=
  List.insertionSort (fun a b => a.lastUsed ≤ b.lastUsed)
    (s.wallpapers.filter (fun w => !w.isFavorite))

/-- The eviction loop of `EnforceCacheLimits`: while a candidate row remains
and either running counter is above its target, delete the row's file and its
database row and decrement the counters (`int64` arithmetic, hence `Int`). -/
def evictLoop : List WallpaperRow → CacheState × Fs → Int → Int → CacheState × Fs
  | [], sfs, _, _ => sfs
  | r :: rest, (s, fs), currentCount, currentSize =>
    if currentCount > targetCount ∨ currentSize > targetSize then
      evictLoop rest (deleteWallpaper s r.id, removeFile fs r.path)
        (currentCount - 1) (currentSize - (r.size : Int))
    else (s, fs)

/-- The `EnforceCacheLimits`: a no-op within both caps; otherwise runs the
eviction loop over the non-favorite rows in ascending `last_used` order. -/
def EnforceCacheLimits (s : CacheState) (fs : Fs) : CacheState × Fs :=
  if totalCount s ≤ MaxCacheSize ∧ (totalSize s : Int) ≤ maxCacheBytes then (s, fs)
  else
    evictLoop (evictionCandidates s) (s, fs) (totalCount s : Int) (totalSize s : Int)

/-- The `AddWallpaper`: hash the file, insert the row (`use_count = 1`,
`last_used = downloaded_at = now`; the best-effort image-resolution probe is
outside the model and its field left empty), append the first usage event, and
then enforce the cache limits.  The `id TEXT PRIMARY KEY` constraint makes the
insert fail when the id already exists. -/
def AddWallpaper (s : CacheState) (fs : Fs) (wallpaperPath filePath categories purities : String)
    (now : Nat) : Except CacheErr (CacheState × Fs) :=
  match CalculateFileHash fs filePath with
  | .error e => .error e
  | .ok (hash, size) =>
    let id := GenerateID wallpaperPath
    if s.wallpapers.any (fun w => w.id == id) then .error .duplicateID
    else
      let row : WallpaperRow :=
        { id := id, path := filePath, originalURL := wallpaperPath, hash := hash, size := size,
          downloadedAt := now, lastUsed := now, useCount := 1, categories := categories,
          purities := purities, resolution := "", isFavorite := false, rating := 0 }
      let s1 : CacheState :=
        { s with wallpapers := s.wallpapers ++ [row],
                 usage_history := s.usage_history ++ [(id, now)] }
      .ok (EnforceCacheLimits s1 fs)

/-- The `MarkAsUsed`: bump `use_count`, set `last_used`, append a usage event;
fails when no row matched. -/
def MarkAsUsed (s : CacheState) (id : String) (now : Nat) : Except CacheErr CacheState :=
  if s.wallpapers.any (fun w => w.id == id) then
    .ok { s with
      wallpapers := s.wallpapers.map
        (fun w => if w.id == id then { w with lastUsed := now, useCount := w.useCount + 1 } else w),
      usage_history := s.usage_history ++ [(id, now)] }
  else .error .notFound

/-- The `MarkAsUsed` iterated over a list of clock readings. -/
def markSeq (s : CacheState) (id : String) : List Nat → Except CacheErr CacheState
  | [] => .ok s
  | t :: ts =>
    match MarkAsUsed s id t with
    | .error e => .error e
    | .ok s' => markSeq s' id ts

/-- The number of usage events of one wallpaper. -/
def eventsCount (s : CacheState) (id : String) : Nat :=
  (s.usage_history.filter (fun e => e.1 == id)).length

/-- The `RemoveWallpaper`: look the row up (`NotFound` when absent), delete its
file, then delete the row (cascading to its tags and usage events). -/
def RemoveWallpaper (s : CacheState) (fs : Fs) (id : String) :
    Except CacheErr (CacheState × Fs) :=
  match lookupWallpaper s id with
  | none => .error .notFound
  | some r => .ok (deleteWallpaper s id, removeFile fs r.path)

/-- The `SetRating`: range check first (`InvalidArgument` outside
`[MinRating, MaxRating]`), then the update (`NotFound` when no row matched). -/
def SetRating (s : CacheState) (id : String) (rating : Int) : Except CacheErr CacheState :=
  if rating < MinRating ∨ rating > MaxRating then .error .invalidArgument
  else if s.wallpapers.any (fun w => w.id == id) then
    let updated := s.wallpapers.map
      (fun w => if w.id == id then { w with rating := rating } else w)
    .ok { s with wallpapers := updated }
  else .error .notFound

/-- The insert loop of `AddTags`: tags already present (per the `existingTags`
list computed before the transaction) are skipped; inserting a `(id, tag)`
pair already in the table violates its primary key and aborts. -/
def addTagsLoop (id : String) (existingTags : List String) :
    List String → List (String × String) → Except CacheErr (List (String × String))
  | [], tbl => .ok tbl
  | t :: rest, tbl =>
    if existingTags.contains t then addTagsLoop id existingTags rest tbl
    else if tbl.contains (id, t) then .error .storageFailure
    else addTagsLoop id existingTags rest (tbl ++ [(id, t)])

/-- The `AddTags`: `NotFound` when the wallpaper is absent; otherwise runs the
insert loop against the tags the wallpaper already has. -/
def AddTags (s : CacheState) (id : String) (tags : List String) : Except CacheErr CacheState :=
  if !s.wallpapers.any (fun w => w.id == id) then .error .notFound
  else
    match addTagsLoop id (getTags s id) tags s.wallpaper_tags with
    | .error e => .error e
    | .ok tbl => .ok { s with wallpaper_tags := tbl }

/-- The delete loop of `RemoveTags`: one `DELETE ... WHERE wallpaper_id = ?
AND tag = ?` per requested tag. -/
def removeTagsLoop (id : String) : List String → List (String × String) → List (String × String)
  | [], tbl => tbl
  | t :: rest, tbl => removeTagsLoop id rest (tbl.filter (fun p => !(p.1 == id && p.2 == t)))

/-- The `RemoveTags`: `NotFound` when the wallpaper is absent; deleting an absent
tag deletes zero rows and succeeds. -/
def RemoveTags (s : CacheState) (id : String) (tags : List String) : Except CacheErr CacheState :=
  if !s.wallpapers.any (fun w => w.id == id) then .error .notFound
  else .ok { s with wallpaper_tags := removeTagsLoop id tags s.wallpaper_tags }

/-- The `id TEXT PRIMARY KEY` constraint of the `wallpapers` table: distinct
rows carry distinct ids.  Every state SQLite can hold satisfies this. -/
def UniqueIds (s : CacheState) : Prop :=
  (s.wallpapers.map (fun w => w.id)).Nodup

instance : DecidablePred UniqueIds := fun s => by
  unfold UniqueIds; infer_instance

/-- The empty database. -/
def emptyCache : CacheState :=
  { wallpapers := [], wallpaper_tags := [], usage_history := [], viewState := none }

/-- Three distinct files on disk, the inputs of the A, B, C scenario. -/
def fsABC : Fs := [("pa", [1]), ("pb", [2]), ("pc", [3])]

/-- Adding wallpapers A, B, C in that order (clock readings 1, 2, 3). -/
def scenarioABC : Except CacheErr (CacheState × Fs) :=
  match AddWallpaper emptyCache fsABC "urlA" "pa" "010" "110" 1 with
  | .error e => .error e
  | .ok (s, fs) =>
    match AddWallpaper s fs "urlB" "pb" "010" "110" 2 with
    | .error e => .error e
    | .ok (s, fs) => AddWallpaper s fs "urlC" "pc" "010" "110" 3

/-- The state and filesystem after the A, B, C scenario. -/
def afterABC : CacheState × Fs :=
  (scenarioABC.toOption).getD (emptyCache, [])

/-- A wallpaper row used by the stale-entry scenario (id `"A"`, backing file
`"pa"`, last used at time 1). -/
def rowA : WallpaperRow :=
  { id := "A", path := "pa", originalURL := "uA", hash := 10, size := 1,
    downloadedAt := 1, lastUsed := 1, useCount := 1, categories := "010",
    purities := "110", resolution := "", isFavorite := false, rating := 0 }

/-- A second row (id `"B"`, backing file `"pb"`, last used at time 2). -/
def rowB : WallpaperRow :=
  { rowA with id := "B", path := "pb", originalURL := "uB", hash := 11,
              downloadedAt := 2, lastUsed := 2 }

/-- A cache whose most recently used wallpaper is B, with A used before it. -/
def staleState : CacheState :=
  { wallpapers := [rowA, rowB], wallpaper_tags := [],
    usage_history := [("A", 1), ("B", 2)], viewState := none }

/-- A filesystem on which A's file exists but B's file is missing. -/
def staleFs : Fs := [("pa", [0])]

/-- Modelled from the spec, for comparison with the code: the wallpaper id
determined by the `lastSeen` ordering *restricted to records whose backing
file exists on disk* — what the claim says `GetCurrent` returns. -/
def specNavCurrent (s : CacheState) (fs : Fs) : Option String :=
  argmaxBy (lastSeen s)
    ((historyIds s).filter (fun id =>
      match lookupWallpaper s id with
      | some r => fileExists fs r.path
      | none => false))

/-- Results of fallible operations are compared in witnesses. -/
instance {e a : Type} [DecidableEq e] [DecidableEq a] : DecidableEq (Except e a) := fun x y =>
  match x, y with
  | .error u, .error v =>
    if h : u = v then .isTrue (by rw [h]) else .isFalse (by intro hc; cases hc; exact h rfl)
  | .error _, .ok _ => .isFalse (by intro hc; cases hc)
  | .ok _, .error _ => .isFalse (by intro hc; cases hc)
  | .ok u, .ok v =>
    if h : u = v then .isTrue (by rw [h]) else .isFalse (by intro hc; cases hc; exact h rfl)

/-- A one-wallpaper state whose wallpaper carries the single tag `"x"`. -/
def tagState : CacheState :=
  { wallpapers := [rowA], wallpaper_tags := [("A", "x")],
    usage_history := [("A", 1)], viewState := none }

/-- The `tagState` with the tag removed. -/
def tagRemoved : CacheState :=
  { wallpapers := [rowA], wallpaper_tags := [],
    usage_history := [("A", 1)], viewState := none }

/-- The empty database (the result of removing the only wallpaper). -/
def removedState : CacheState :=
  { wallpapers := [], wallpaper_tags := [], usage_history := [], viewState := none }

/-- The row `AddWallpaper` inserts for a file with the given bytes. -/
def insertedRow (url fp cat pur : String) (bytes : List Nat) (now : Nat) : WallpaperRow :=
  { id := GenerateID url, path := fp, originalURL := url, hash := hashBytes bytes,
    size := bytes.length, downloadedAt := now, lastUsed := now, useCount := 1,
    categories := cat, purities := pur, resolution := "", isFavorite := false, rating := 0 }

/-- A one-file filesystem for the C6 scenario. -/
def c6File : Fs := [("p", [5])]

/-- The state after adding that file to the empty cache at time 1. -/
def c6S1 : CacheState :=
  { wallpapers := [insertedRow "u" "p" "010" "110" [5] 1], wallpaper_tags := [],
    usage_history := [(GenerateID "u", 1)], viewState := none }

/-- The `int64` sum of the sizes of a list of rows. -/
def sumSizes (l : List WallpaperRow) : Int :=
  (l.map (fun r => (r.size : Int))).sum

/-- Folding `deleteWallpaper` over a list of victim rows. -/
def deleteAll (s : CacheState) (v : List WallpaperRow) : CacheState :=
  v.foldl (fun t r => deleteWallpaper t r.id) s

instance : IsTotal WallpaperRow (fun a b => a.lastUsed ≤ b.lastUsed) :=
  ⟨fun a b => Nat.le_total a.lastUsed b.lastUsed⟩

instance : IsTrans WallpaperRow (fun a b => a.lastUsed ≤ b.lastUsed) :=
  ⟨fun _ _ _ hab hbc => Nat.le_trans hab hbc⟩

/-- A non-favorite row of three gigabytes, least recently used. -/
def rowE1 : WallpaperRow :=
  { id := "E1", path := "q1", originalURL := "u1", hash := 1, size := 3000000000,
    downloadedAt := 1, lastUsed := 1, useCount := 1, categories := "010",
    purities := "110", resolution := "", isFavorite := false, rating := 0 }

/-- A second three-gigabyte non-favorite row, used later. -/
def rowE2 : WallpaperRow :=
  { rowE1 with id := "E2", path := "q2", originalURL := "u2", hash := 2, lastUsed := 2 }

/-- Two non-favorite rows totalling six gigabytes: over the byte cap. -/
def evictS : CacheState :=
  { wallpapers := [rowE1, rowE2], wallpaper_tags := [], usage_history := [],
    viewState := none }

/-- A favorite three-gigabyte row. -/
def rowF1 : WallpaperRow :=
  { rowE1 with id := "F1", path := "f1", isFavorite := true }

/-- A second favorite three-gigabyte row. -/
def rowF2 : WallpaperRow :=
  { rowE1 with id := "F2", path := "f2", lastUsed := 2, isFavorite := true }

/-- Two favorite rows totalling six gigabytes: over the byte cap with every
entry favorited. -/
def favS : CacheState :=
  { wallpapers := [rowF1, rowF2], wallpaper_tags := [], usage_history := [],
    viewState := none }

/-- If the shared metadata-loading block returns a record, that record's
backing file exists. -/
theorem loadMeta_fileExists {s : CacheState} {fs : Fs} {wid : String}
    {m : WallpaperMetadata} (h : loadMeta s fs wid = some m) :
    fileExists fs m.w.path = true := by
  unfold loadMeta at h
  split at h
  · exact absurd h (by simp)
  · next r heq =>
    split at h
    · next hf => cases h; exact hf
    · exact absurd h (by simp)

/-- C1 (counterexample): with A's file present and B's file missing, the
most recently used wallpaper whose file exists is A, but `GetCurrent` returns
nothing — the stale top entry makes navigation return `nil` instead of being
filtered out of the ordering. -/
theorem c1_counterexample :
    specNavCurrent staleState staleFs = some "A" ∧
    GetCurrent staleState staleFs = none := by
  decide

/-- C1 (amended): `GetCurrent`, `GetNext` and `GetPrevious` never return a
record whose backing file is missing; the file check is applied to the single
record selected by the `lastSeen` ordering over all records, and when that
record's file is missing the call returns nothing rather than falling back to
the next record whose file exists. -/
theorem c1_stale_invisible (s : CacheState) (fs : Fs) (m : WallpaperMetadata) :
    (GetCurrent s fs = some m → fileExists fs m.w.path = true) ∧
    (GetNext s fs = some m → fileExists fs m.w.path = true) ∧
    (GetPrevious s fs = some m → fileExists fs m.w.path = true) := by
  refine ⟨fun h => ?_, fun h => ?_, fun h => ?_⟩
  · unfold GetCurrent at h
    obtain ⟨a, -, h2⟩ := Option.bind_eq_some.mp h
    exact loadMeta_fileExists h2
  · unfold GetNext at h
    simp only [] at h
    split at h
    · obtain ⟨a, -, h2⟩ := Option.bind_eq_some.mp h
      exact loadMeta_fileExists h2
    · split at h
      · exact absurd h (by simp)
      · obtain ⟨a, -, h2⟩ := Option.bind_eq_some.mp h
        exact loadMeta_fileExists h2
  · unfold GetPrevious at h
    simp only [] at h
    split at h
    · obtain ⟨a, -, h2⟩ := Option.bind_eq_some.mp h
      exact loadMeta_fileExists h2
    · split at h
      · exact absurd h (by simp)
      · obtain ⟨a, -, h2⟩ := Option.bind_eq_some.mp h
        exact loadMeta_fileExists h2

/-- C1 (witness): at the A, B, C scenario state `GetCurrent` does return a
record, and that record's backing file exists. -/
theorem c1_stale_invisible_witness :
    ∃ m, GetCurrent afterABC.1 afterABC.2 = some m ∧
      fileExists afterABC.2 m.w.path = true := by
  refine ⟨⟨{ id := GenerateID "urlC", path := "pc", originalURL := "urlC",
             hash := hashBytes [3], size := 1, downloadedAt := 3, lastUsed := 3,
             useCount := 1, categories := "010", purities := "110",
             resolution := "", isFavorite := false, rating := 0 }, []⟩, ?_, ?_⟩
  · decide
  · exact (c1_stale_invisible afterABC.1 afterABC.2 _).1 (by decide)

/-- C2: after adding wallpapers A, B, C in that order (clock readings
1 < 2 < 3, all backing files present, no view pointer set), `GetCurrent`
returns C and `GetPrevious` returns B; after `SetCurrentView(B)`, `GetNext`
returns C and `GetPrevious` returns A. -/
theorem c2_navigation_consistency :
    scenarioABC.isOk = true ∧
    (GetCurrent afterABC.1 afterABC.2).map (fun m => m.w.id) = some (GenerateID "urlC") ∧
    (GetPrevious afterABC.1 afterABC.2).map (fun m => m.w.id) = some (GenerateID "urlB") ∧
    (GetNext (SetCurrentView afterABC.1 (GenerateID "urlB")) afterABC.2).map (fun m => m.w.id)
      = some (GenerateID "urlC") ∧
    (GetPrevious (SetCurrentView afterABC.1 (GenerateID "urlB")) afterABC.2).map (fun m => m.w.id)
      = some (GenerateID "urlA") := by
  decide

/-- The `WHERE id = ?` matching no row is the same as `find?` returning nothing. -/
theorem lookupWallpaper_none_iff {s : CacheState} {id : String} :
    lookupWallpaper s id = none ↔ s.wallpapers.any (fun w => w.id == id) = false := by
  simp [lookupWallpaper, List.find?_eq_none, List.any_eq_true]

/-- A row found by id witnesses that the `UPDATE ... WHERE id = ?` touches a
row. -/
theorem any_of_lookup {s : CacheState} {id : String} {r : WallpaperRow}
    (h : lookupWallpaper s id = some r) :
    s.wallpapers.any (fun w => w.id == id) = true := by
  have hm := List.mem_of_find?_eq_some h
  have hp := List.find?_some h
  simp only [List.any_eq_true]
  exact ⟨r, hm, hp⟩

/-- An `UPDATE ... SET ... WHERE id = ?` that does not change the id column:
looking the id up afterwards yields the updated row. -/
theorem find?_map_update (g : WallpaperRow → WallpaperRow) (hg : ∀ w, (g w).id = w.id)
    {l : List WallpaperRow} {id : String} {r : WallpaperRow}
    (h : l.find? (fun w => w.id == id) = some r) :
    (l.map (fun w => if w.id == id then g w else w)).find? (fun w => w.id == id)
      = some (g r) := by
  induction l with
  | nil => simp at h
  | cons x xs ih =>
    by_cases hx : x.id = id
    · have hbx : (x.id == id) = true := beq_iff_eq.mpr hx
      simp only [List.find?, hbx] at h
      injection h with h
      subst h
      have hgx : ((g x).id == id) = true := by rw [hg]; exact hbx
      rw [List.map_cons, if_pos hbx]
      simp only [List.find?, hgx]
    · have hbx : (x.id == id) = false := by simpa using hx
      simp only [List.find?, hbx] at h
      rw [List.map_cons, if_neg (by simp [hbx])]
      simp only [List.find?, hbx]
      exact ih h

/-- A rating outside the configured range is rejected before any lookup. -/
theorem setRating_invalid (s : CacheState) (id : String) (r : Int)
    (h : r < MinRating ∨ r > MaxRating) :
    SetRating s id r = .error .invalidArgument := by
  unfold SetRating
  rw [if_pos h]

/-- A rating inside the configured range is never rejected as invalid. -/
theorem setRating_in_range (s : CacheState) (id : String) (r : Int)
    (h : MinRating ≤ r ∧ r ≤ MaxRating) :
    SetRating s id r ≠ .error .invalidArgument := by
  unfold SetRating
  rw [if_neg (by omega)]
  split <;> simp

/-- C7: `SetRating` rejects every rating outside `[1, 5]` (in particular 0
and 6) with `InvalidArgument` before touching the store, accepts 1 and 5,
fails `NotFound` for an in-range rating when the id is absent, and on success
the stored record's rating equals the argument while the rest of the state is
untouched. -/
theorem c7_setRating (s : CacheState) (id : String) (rating : Int) :
    ((rating < MinRating ∨ rating > MaxRating) →
      SetRating s id rating = .error .invalidArgument) ∧
    SetRating s id 0 = .error .invalidArgument ∧
    SetRating s id 6 = .error .invalidArgument ∧
    SetRating s id 1 ≠ .error .invalidArgument ∧
    SetRating s id 5 ≠ .error .invalidArgument ∧
    ((MinRating ≤ rating ∧ rating ≤ MaxRating) → lookupWallpaper s id = none →
      SetRating s id rating = .error .notFound) ∧
    (∀ r, (MinRating ≤ rating ∧ rating ≤ MaxRating) → lookupWallpaper s id = some r →
      ∃ s', SetRating s id rating = .ok s' ∧
        lookupWallpaper s' id = some { r with rating := rating } ∧
        s'.wallpaper_tags = s.wallpaper_tags ∧
        s'.usage_history = s.usage_history ∧
        s'.viewState = s.viewState) := by
  refine ⟨setRating_invalid s id rating, setRating_invalid s id 0 (by decide),
    setRating_invalid s id 6 (by decide), setRating_in_range s id 1 (by decide),
    setRating_in_range s id 5 (by decide), fun hr hnone => ?_, fun r hr hsome => ?_⟩
  · unfold SetRating
    rw [if_neg (by omega), if_neg]
    rw [lookupWallpaper_none_iff] at hnone
    simp [hnone]
  · refine ⟨⟨s.wallpapers.map (fun w => if w.id == id then { w with rating := rating } else w),
      s.wallpaper_tags, s.usage_history, s.viewState⟩, ?_, ?_, rfl, rfl, rfl⟩
    · unfold SetRating
      rw [if_neg (by omega), if_pos (any_of_lookup hsome)]
    · simp only [lookupWallpaper]
      exact find?_map_update (fun w => { w with rating := rating }) (fun w => rfl) hsome

/-- C7 (witness): at a concrete two-row state, rating 0 is rejected, and
rating 4 on a present id succeeds and stores 4. -/
theorem c7_setRating_witness :
    ((4 : Int) < MinRating ∨ (4 : Int) > MaxRating →
      SetRating staleState "A" 4 = .error .invalidArgument) ∧
    SetRating staleState "A" 0 = .error .invalidArgument ∧
    SetRating staleState "A" 6 = .error .invalidArgument ∧
    SetRating staleState "A" 1 ≠ .error .invalidArgument ∧
    SetRating staleState "A" 5 ≠ .error .invalidArgument ∧
    ((MinRating ≤ (4 : Int) ∧ (4 : Int) ≤ MaxRating) → lookupWallpaper staleState "A" = none →
      SetRating staleState "A" 4 = .error .notFound) ∧
    (∀ r, (MinRating ≤ (4 : Int) ∧ (4 : Int) ≤ MaxRating) →
      lookupWallpaper staleState "A" = some r →
      ∃ s', SetRating staleState "A" 4 = .ok s' ∧
        lookupWallpaper s' "A" = some { r with rating := 4 } ∧
        s'.wallpaper_tags = staleState.wallpaper_tags ∧
        s'.usage_history = staleState.usage_history ∧
        s'.viewState = staleState.viewState) :=
  c7_setRating staleState "A" 4

/-- The distinct members of a list drawn from `ts` are no more numerous than
the distinct members of `ts`. -/
theorem dedup_filter_length_le (l ts : List String) :
    (l.filter (fun t => ts.contains t)).dedup.length ≤ ts.dedup.length := by
  have hnd : (l.filter (fun t => ts.contains t)).dedup.Nodup := List.nodup_dedup _
  have hsub : (l.filter (fun t => ts.contains t)).dedup ⊆ ts.dedup := by
    intro a ha
    rw [List.mem_dedup] at ha ⊢
    have := List.of_mem_filter ha
    simpa using this
  exact (hnd.subperm hsub).length_le

/-- C10: `GetByTags` returns the empty result whenever the query list
contains a repeated tag (its raw length exceeds its distinct-tag count),
because a record matches only when its count of distinct matching tags equals
the raw length of the list; the empty query likewise returns nothing. -/
theorem c10_getByTags_duplicates (s : CacheState) (fs : Fs) (ts : List String) :
    (ts.dedup.length < ts.length → GetByTags s fs ts = []) ∧
    GetByTags s fs [] = [] := by
  constructor
  · intro hlt
    have hne : ts.isEmpty = false := by
      cases ts
      · simp at hlt
      · rfl
    have hfilter : s.wallpapers.filter
        (fun w => ((getTags s w.id).filter (fun t => ts.contains t)).dedup.length
          == ts.length) = [] := by
      rw [List.filter_eq_nil_iff]
      intro w hw
      have hle := dedup_filter_length_le (getTags s w.id) ts
      have hne2 : ((getTags s w.id).filter (fun t => ts.contains t)).dedup.length
          ≠ ts.length := by omega
      simpa using hne2
    simp only [GetByTags, hne, Bool.false_eq_true, if_false, hfilter]
    rfl
  · rfl

/-- C10 (witness): the duplicated query `["a", "a"]` returns nothing at a
concrete populated state. -/
theorem c10_getByTags_duplicates_witness :
    (["a", "a"] : List String).dedup.length < (["a", "a"] : List String).length ∧
    GetByTags staleState staleFs ["a", "a"] = [] :=
  ⟨by decide, (c10_getByTags_duplicates staleState staleFs ["a", "a"]).1 (by decide)⟩

/-- Tag membership read through `getTags` is membership of the tag row. -/
theorem mem_getTags {s : CacheState} {id t : String} :
    t ∈ getTags s id ↔ (id, t) ∈ s.wallpaper_tags := by
  constructor
  · intro h
    rcases List.mem_map.mp h with ⟨p, hp, hsnd⟩
    rcases List.mem_filter.mp hp with ⟨hmem, hbeq⟩
    have h1 : p.1 = id := by simpa using hbeq
    have hpt : p = (id, t) := by
      cases p
      simp_all
    rwa [hpt] at hmem
  · intro h
    apply List.mem_map.mpr
    exact ⟨(id, t), List.mem_filter.mpr ⟨h, by simp⟩, rfl⟩

/-- The `AddTags` insert loop skips every tag that is already present. -/
theorem addTagsLoop_skip (id : String) (ex : List String) (ts : List String)
    (tbl : List (String × String)) (h : ∀ t ∈ ts, ex.contains t = true) :
    addTagsLoop id ex ts tbl = .ok tbl := by
  induction ts with
  | nil => rfl
  | cons t rest ih =>
    unfold addTagsLoop
    rw [if_pos (h t (by simp))]
    exact ih (fun t' ht' => h t' (by simp [ht']))

/-- The `AddTags` insert loop only appends rows. -/
theorem addTagsLoop_subset (id : String) (ex : List String) :
    ∀ (ts : List String) (tbl tbl' : List (String × String)),
      addTagsLoop id ex ts tbl = .ok tbl' → ∀ x ∈ tbl, x ∈ tbl' := by
  intro ts
  induction ts with
  | nil =>
    intro tbl tbl' h x hx
    cases h
    exact hx
  | cons t rest ih =>
    intro tbl tbl' h x hx
    unfold addTagsLoop at h
    split at h
    · exact ih tbl tbl' h x hx
    · split at h
      · exact absurd h (by simp)
      · exact ih _ tbl' h x (by simp [hx])

/-- After a successful `AddTags` insert loop every requested tag is either one
of the pre-existing tags or a row of the resulting table. -/
theorem addTagsLoop_covers (id : String) (ex : List String) :
    ∀ (ts : List String) (tbl tbl' : List (String × String)),
      addTagsLoop id ex ts tbl = .ok tbl' →
      ∀ t ∈ ts, ex.contains t = true ∨ (id, t) ∈ tbl' := by
  intro ts
  induction ts with
  | nil =>
    intro tbl tbl' h t ht
    simp at ht
  | cons t0 rest ih =>
    intro tbl tbl' h t ht
    unfold addTagsLoop at h
    rcases List.mem_cons.mp ht with heq | hrest
    · subst heq
      split at h
      · next hc => exact Or.inl hc
      · split at h
        · exact absurd h (by simp)
        · refine Or.inr (addTagsLoop_subset id ex rest _ tbl' h (id, t) (by simp))
    · split at h
      · exact ih tbl tbl' h t hrest
      · split at h
        · exact absurd h (by simp)
        · exact ih _ tbl' h t hrest

/-- The `RemoveTags` delete loop is one filter over the tag table. -/
theorem removeTagsLoop_eq_filter (id : String) :
    ∀ (ts : List String) (tbl : List (String × String)),
      removeTagsLoop id ts tbl
        = tbl.filter (fun p => !(p.1 == id && ts.contains p.2)) := by
  intro ts
  induction ts with
  | nil =>
    intro tbl
    unfold removeTagsLoop
    symm
    apply List.filter_eq_self.mpr
    intro p _
    simp
  | cons t rest ih =>
    intro tbl
    unfold removeTagsLoop
    rw [ih, List.filter_filter]
    apply List.filter_congr
    intro p _
    rw [List.contains_cons]
    cases p.1 == id <;> cases p.2 == t <;> cases rest.contains p.2 <;> rfl

/-- C9: for an id present in the cache, `AddTags` and `RemoveTags` are
idempotent: adding tags the record already has, or removing tags it does not
have, succeeds and leaves the state exactly as it was, and repeating the same
`AddTags` or `RemoveTags` call leaves the state of the first call unchanged. -/
theorem c9_tags_idempotent (s : CacheState) (id : String) (ts : List String) :
    (∀ s', AddTags s id ts = .ok s' → AddTags s' id ts = .ok s') ∧
    (s.wallpapers.any (fun w => w.id == id) = true →
      (∀ t ∈ ts, t ∈ getTags s id) → AddTags s id ts = .ok s) ∧
    (∀ s', RemoveTags s id ts = .ok s' → RemoveTags s' id ts = .ok s') ∧
    (s.wallpapers.any (fun w => w.id == id) = true →
      (∀ t ∈ ts, t ∉ getTags s id) → RemoveTags s id ts = .ok s) ∧
    (s.wallpapers.any (fun w => w.id == id) = true →
      ∃ s', RemoveTags s id ts = .ok s') := by
  refine ⟨?_, ?_, ?_, ?_, ?_⟩
  · intro s' h
    unfold AddTags at h
    split at h
    · exact absurd h (by simp)
    · next hany =>
      split at h
      · exact absurd h (by simp)
      · next tbl hloop =>
        injection h with h
        have hw : s'.wallpapers = s.wallpapers := by rw [← h]
        have htg : s'.wallpaper_tags = tbl := by rw [← h]
        have hcov := addTagsLoop_covers id (getTags s id) ts s.wallpaper_tags tbl hloop
        have hsub := addTagsLoop_subset id (getTags s id) ts s.wallpaper_tags tbl hloop
        have hall : ∀ t ∈ ts, (getTags s' id).contains t = true := by
          intro t ht
          have hmem : (id, t) ∈ tbl := by
            rcases hcov t ht with hex | hm
            · exact hsub _ (mem_getTags.mp (by simpa using hex))
            · exact hm
          have : t ∈ getTags s' id := by
            apply mem_getTags.mpr
            rw [htg]
            exact hmem
          simpa using this
        unfold AddTags
        rw [if_neg (by rw [hw]; simpa using hany)]
        rw [addTagsLoop_skip id (getTags s' id) ts s'.wallpaper_tags hall]
  · intro hany hmem
    unfold AddTags
    rw [if_neg (by simpa using hany)]
    rw [addTagsLoop_skip id (getTags s id) ts s.wallpaper_tags
      (fun t ht => by simpa using hmem t ht)]
  · intro s' h
    unfold RemoveTags at h
    split at h
    · exact absurd h (by simp)
    · next hany =>
      injection h with h
      have hw : s'.wallpapers = s.wallpapers := by rw [← h]
      have htg : s'.wallpaper_tags = removeTagsLoop id ts s.wallpaper_tags := by rw [← h]
      unfold RemoveTags
      rw [if_neg (by rw [hw]; simpa using hany)]
      have hfix : removeTagsLoop id ts s'.wallpaper_tags = s'.wallpaper_tags := by
        rw [htg, removeTagsLoop_eq_filter, removeTagsLoop_eq_filter]
        apply List.filter_eq_self.mpr
        intro p hp
        exact (List.mem_filter.mp hp).2
      rw [hfix]
  · intro hany hnot
    unfold RemoveTags
    rw [if_neg (by simpa using hany)]
    rw [removeTagsLoop_eq_filter]
    have hfix : s.wallpaper_tags.filter (fun p => !(p.1 == id && ts.contains p.2))
        = s.wallpaper_tags := by
      apply List.filter_eq_self.mpr
      intro p hp
      by_cases hid : p.1 = id
      · have hpt : p = (id, p.2) := by
          cases p
          simp_all
        have hmem : p.2 ∈ getTags s id := mem_getTags.mpr (by rw [← hpt]; exact hp)
        have hnotin : p.2 ∉ ts := fun hc => hnot p.2 hc hmem
        simp [hnotin]
      · simp [hid]
    rw [hfix]
  · intro hany
    exact ⟨_, by unfold RemoveTags; rw [if_neg (by simpa using hany)]⟩

/-- C9 (witness): adding an already-present tag and removing an absent tag
are exact no-ops at a concrete state, and repeating a removal leaves the state
of the first removal unchanged. -/
theorem c9_tags_idempotent_witness :
    AddTags tagState "A" ["x"] = .ok tagState ∧
    RemoveTags tagState "A" ["y"] = .ok tagState ∧
    RemoveTags tagRemoved "A" ["x"] = .ok tagRemoved :=
  ⟨(c9_tags_idempotent tagState "A" ["x"]).2.1 (by decide) (by decide),
   (c9_tags_idempotent tagState "A" ["y"]).2.2.2.1 (by decide) (by decide),
   (c9_tags_idempotent tagState "A" ["x"]).2.2.1 tagRemoved (by decide)⟩

/-- A row accepted by `scanWallpapers` is the scanned row. -/
theorem scanRow_some {s : CacheState} {fs : Fs} {r : WallpaperRow} {m : WallpaperMetadata}
    (h : scanRow s fs r = some m) : m.w = r := by
  unfold scanRow at h
  split at h
  · cases h
    rfl
  · exact absurd h (by simp)

/-- A record loaded by the shared metadata block is a row of the table. -/
theorem loadMeta_mem {s : CacheState} {fs : Fs} {wid : String} {m : WallpaperMetadata}
    (h : loadMeta s fs wid = some m) : m.w ∈ s.wallpapers := by
  unfold loadMeta at h
  split at h
  · exact absurd h (by simp)
  · next r heq =>
    split at h
    · cases h
      exact List.mem_of_find?_eq_some heq
    · exact absurd h (by simp)

/-- The `GetCurrent` only returns rows of the `wallpapers` table. -/
theorem getCurrent_mem {s : CacheState} {fs : Fs} {m : WallpaperMetadata}
    (h : GetCurrent s fs = some m) : m.w ∈ s.wallpapers := by
  unfold GetCurrent at h
  obtain ⟨a, -, h2⟩ := Option.bind_eq_some.mp h
  exact loadMeta_mem h2

/-- The `GetNext` only returns rows of the `wallpapers` table. -/
theorem getNext_mem {s : CacheState} {fs : Fs} {m : WallpaperMetadata}
    (h : GetNext s fs = some m) : m.w ∈ s.wallpapers := by
  unfold GetNext at h
  simp only [] at h
  split at h
  · obtain ⟨a, -, h2⟩ := Option.bind_eq_some.mp h
    exact loadMeta_mem h2
  · split at h
    · exact absurd h (by simp)
    · obtain ⟨a, -, h2⟩ := Option.bind_eq_some.mp h
      exact loadMeta_mem h2

/-- The `GetPrevious` only returns rows of the `wallpapers` table. -/
theorem getPrevious_mem {s : CacheState} {fs : Fs} {m : WallpaperMetadata}
    (h : GetPrevious s fs = some m) : m.w ∈ s.wallpapers := by
  unfold GetPrevious at h
  simp only [] at h
  split at h
  · obtain ⟨a, -, h2⟩ := Option.bind_eq_some.mp h
    exact loadMeta_mem h2
  · split at h
    · exact absurd h (by simp)
    · obtain ⟨a, -, h2⟩ := Option.bind_eq_some.mp h
      exact loadMeta_mem h2

/-- The `GetByTags` only returns rows of the `wallpapers` table. -/
theorem getByTags_mem {s : CacheState} {fs : Fs} {ts : List String} {m : WallpaperMetadata}
    (h : m ∈ GetByTags s fs ts) : m.w ∈ s.wallpapers := by
  unfold GetByTags at h
  split at h
  · simp at h
  · simp only [] at h
    rcases List.mem_filterMap.mp h with ⟨r, hr, hsc⟩
    have hr2 := (List.perm_insertionSort _ _).mem_iff.mp hr
    rw [scanRow_some hsc]
    exact List.mem_of_mem_filter hr2

/-- The `GetHistory` only returns rows of the `wallpapers` table. -/
theorem getHistory_mem {s : CacheState} {fs : Fs} {lim : Int} {m : WallpaperMetadata}
    (h : m ∈ GetHistory s fs lim) : m.w ∈ s.wallpapers := by
  unfold GetHistory at h
  simp only [] at h
  rcases List.mem_filterMap.mp h with ⟨r, hr, hsc⟩
  have hr2 := List.mem_of_mem_take hr
  rcases List.mem_filterMap.mp hr2 with ⟨hid, -, hlook⟩
  rw [scanRow_some hsc]
  exact List.mem_of_find?_eq_some hlook

/-- No row of the table left by `deleteWallpaper` carries the deleted id. -/
theorem deleteWallpaper_wallpapers_ne {s : CacheState} {id : String} {w : WallpaperRow}
    (h : w ∈ (deleteWallpaper s id).wallpapers) : w.id ≠ id := by
  have := (List.mem_filter.mp h).2
  simpa using this

/-- Looking the deleted id up afterwards finds nothing. -/
theorem deleteWallpaper_lookup_none (s : CacheState) (id : String) :
    lookupWallpaper (deleteWallpaper s id) id = none := by
  unfold lookupWallpaper
  rw [List.find?_eq_none]
  intro w hw
  simpa using deleteWallpaper_wallpapers_ne hw

/-- C3: a successful `RemoveWallpaper(id)` deletes the record and cascades
to its tag rows and usage events, so that afterwards the tag and usage tables
hold no row for the id and `GetByTags`, `GetHistory`, `GetCurrent`, `GetNext`
and `GetPrevious` no longer reference it. -/
theorem c3_removeWallpaper_cascades (s : CacheState) (fs : Fs) (id : String)
    (s' : CacheState) (fs' : Fs) (h : RemoveWallpaper s fs id = .ok (s', fs')) :
    (∀ p ∈ s'.wallpaper_tags, p.1 ≠ id) ∧
    (∀ e ∈ s'.usage_history, e.1 ≠ id) ∧
    lookupWallpaper s' id = none ∧
    (∀ ts m, m ∈ GetByTags s' fs' ts → m.w.id ≠ id) ∧
    (∀ lim m, m ∈ GetHistory s' fs' lim → m.w.id ≠ id) ∧
    (∀ m, GetCurrent s' fs' = some m → m.w.id ≠ id) ∧
    (∀ m, GetNext s' fs' = some m → m.w.id ≠ id) ∧
    (∀ m, GetPrevious s' fs' = some m → m.w.id ≠ id) := by
  unfold RemoveWallpaper at h
  split at h
  · exact absurd h (by simp)
  · next r heq =>
    injection h with h
    injection h with h1 h2
    subst h1
    subst h2
    refine ⟨?_, ?_, deleteWallpaper_lookup_none s id, ?_, ?_, ?_, ?_, ?_⟩
    · intro p hp
      have := (List.mem_filter.mp hp).2
      simpa using this
    · intro e he
      have := (List.mem_filter.mp he).2
      simpa using this
    · intro ts m hm
      exact deleteWallpaper_wallpapers_ne (getByTags_mem hm)
    · intro lim m hm
      exact deleteWallpaper_wallpapers_ne (getHistory_mem hm)
    · intro m hm
      exact deleteWallpaper_wallpapers_ne (getCurrent_mem hm)
    · intro m hm
      exact deleteWallpaper_wallpapers_ne (getNext_mem hm)
    · intro m hm
      exact deleteWallpaper_wallpapers_ne (getPrevious_mem hm)

/-- C3 (witness): removing the only wallpaper of a concrete tagged state
empties every table and makes every query blind to the id. -/
theorem c3_removeWallpaper_cascades_witness :
    RemoveWallpaper tagState [("pa", [0])] "A" = .ok (removedState, ([] : Fs)) ∧
    ((∀ p ∈ removedState.wallpaper_tags, p.1 ≠ "A") ∧
     (∀ e ∈ removedState.usage_history, e.1 ≠ "A") ∧
     lookupWallpaper removedState "A" = none ∧
     (∀ ts m, m ∈ GetByTags removedState ([] : Fs) ts → m.w.id ≠ "A") ∧
     (∀ lim m, m ∈ GetHistory removedState ([] : Fs) lim → m.w.id ≠ "A") ∧
     (∀ m, GetCurrent removedState ([] : Fs) = some m → m.w.id ≠ "A") ∧
     (∀ m, GetNext removedState ([] : Fs) = some m → m.w.id ≠ "A") ∧
     (∀ m, GetPrevious removedState ([] : Fs) = some m → m.w.id ≠ "A")) :=
  ⟨by decide,
   c3_removeWallpaper_cascades tagState [("pa", [0])] "A" removedState [] (by decide)⟩

/-- Within both caps `EnforceCacheLimits` is a no-op. -/
theorem enforce_within {s : CacheState} (fs : Fs)
    (h : totalCount s ≤ MaxCacheSize ∧ (totalSize s : Int) ≤ maxCacheBytes) :
    EnforceCacheLimits s fs = (s, fs) := by
  unfold EnforceCacheLimits
  rw [if_pos h]

/-- Searching past a prefix with no match. -/
theorem find?_append_none {α : Type} {l₁ l₂ : List α} {p : α → Bool}
    (h : l₁.find? p = none) : (l₁ ++ l₂).find? p = l₂.find? p := by
  induction l₁ with
  | nil => rfl
  | cons x xs ih =>
    rw [List.find?_eq_none] at h
    have hx : p x = false := by
      have := h x (by simp)
      simpa using this
    rw [List.cons_append]
    simp only [List.find?, hx]
    exact ih (List.find?_eq_none.mpr (fun a ha => by simpa using h a (by simp [ha])))

/-- A successful `AddWallpaper` on an existing file, when the grown cache is
still within both caps, appends exactly the new row and its first usage event
(and the insert implies no row with the generated id pre-existed). -/
theorem addWallpaper_ok {s : CacheState} {fs : Fs} {url fp cat pur : String} {bytes : List Nat}
    {now : Nat} {s1 : CacheState} {fs1 : Fs}
    (hfile : List.lookup fp fs = some bytes)
    (hcount : s.wallpapers.length + 1 ≤ MaxCacheSize)
    (hsize : (totalSize s : Int) + bytes.length ≤ maxCacheBytes)
    (h : AddWallpaper s fs url fp cat pur now = .ok (s1, fs1)) :
    s1 = { s with wallpapers := s.wallpapers ++ [insertedRow url fp cat pur bytes now],
                  usage_history := s.usage_history ++ [(GenerateID url, now)] } ∧
    fs1 = fs ∧ s.wallpapers.any (fun w => w.id == GenerateID url) = false := by
  unfold AddWallpaper CalculateFileHash at h
  rw [hfile] at h
  simp only [] at h
  split at h
  · exact absurd h (by simp)
  · next hany =>
    have hwithin : EnforceCacheLimits
        { s with wallpapers := s.wallpapers ++ [insertedRow url fp cat pur bytes now],
                 usage_history := s.usage_history ++ [(GenerateID url, now)] } fs
        = ({ s with wallpapers := s.wallpapers ++ [insertedRow url fp cat pur bytes now],
                    usage_history := s.usage_history ++ [(GenerateID url, now)] }, fs) := by
      apply enforce_within
      constructor
      · simpa [totalCount] using hcount
      · have hts : totalSize { s with
            wallpapers := s.wallpapers ++ [insertedRow url fp cat pur bytes now],
            usage_history := s.usage_history ++ [(GenerateID url, now)] }
            = totalSize s + bytes.length := by
          simp [totalSize, insertedRow]
        rw [hts]
        push_cast
        exact hsize
    simp only [insertedRow] at hwithin
    rw [hwithin] at h
    injection h with h
    injection h with h1 h2
    exact ⟨h1.symm, h2.symm, by simpa using hany⟩

/-- The `MarkAsUsed` on a present id succeeds, bumps the found row's counters, and
appends one usage event. -/
theorem markAsUsed_ok {s : CacheState} {id : String} {r : WallpaperRow} (t : Nat)
    (h : lookupWallpaper s id = some r) :
    ∃ s', MarkAsUsed s id t = .ok s' ∧
      lookupWallpaper s' id = some { r with lastUsed := t, useCount := r.useCount + 1 } ∧
      eventsCount s' id = eventsCount s id + 1 := by
  refine ⟨⟨s.wallpapers.map
      (fun w => if w.id == id then { w with lastUsed := t, useCount := w.useCount + 1 } else w),
    s.wallpaper_tags, s.usage_history ++ [(id, t)], s.viewState⟩, ?_, ?_, ?_⟩
  · unfold MarkAsUsed
    rw [if_pos (any_of_lookup h)]
  · simp only [lookupWallpaper]
    exact find?_map_update
      (fun w => { w with lastUsed := t, useCount := w.useCount + 1 }) (fun w => rfl) h
  · simp [eventsCount, List.filter_append]

/-- Iterating `MarkAsUsed` over a list of clock readings: every step succeeds,
the use count grows by the number of readings, the usage events likewise, and
`last_used` ends at the final reading. -/
theorem markSeq_ok {id : String} :
    ∀ (ts : List Nat) (s : CacheState) (r : WallpaperRow),
      lookupWallpaper s id = some r →
      ∃ s', markSeq s id ts = .ok s' ∧
        lookupWallpaper s' id
          = some { r with lastUsed := ts.getLastD r.lastUsed,
                          useCount := r.useCount + ts.length } ∧
        eventsCount s' id = eventsCount s id + ts.length := by
  intro ts
  induction ts with
  | nil =>
    intro s r h
    exact ⟨s, rfl, by simpa using h, by simp⟩
  | cons t rest ih =>
    intro s r h
    obtain ⟨s1, hm, hl, he⟩ := markAsUsed_ok t h
    obtain ⟨s', hms, hl', he'⟩ := ih s1 _ hl
    refine ⟨s', ?_, ?_, ?_⟩
    · unfold markSeq
      rw [hm]
      exact hms
    · rw [hl', List.getLastD_cons]
      rw [show r.useCount + 1 + rest.length = r.useCount + (t :: rest).length by
        simp only [List.length_cons]; omega]
    · rw [he', he]
      simp only [List.length_cons]
      omega

/-- The last element of a `k`-element prefix is element `k` of the list with
the fallback prepended. -/
theorem getLastD_take_eq_getD :
    ∀ (k : Nat) (ts : List Nat) (t0 : Nat), k ≤ ts.length →
      (ts.take k).getLastD t0 = (t0 :: ts).getD k 0 := by
  intro k
  induction k with
  | zero =>
    intro ts t0 _
    rfl
  | succ k2 ih =>
    intro ts t0 h
    cases ts with
    | nil => simp at h
    | cons t rest =>
      rw [List.take_succ_cons, List.getLastD_cons, ih rest t (by simpa using h)]
      simp [List.getD_cons_succ]

/-- Along a strictly increasing list, successive elements grow. -/
theorem chain_lt_getD :
    ∀ (l : List Nat), List.Chain' (· < ·) l →
      ∀ k, k + 1 < l.length → l.getD k 0 < l.getD (k + 1) 0 := by
  intro l
  induction l with
  | nil =>
    intro _ k hk
    simp at hk
  | cons a rest ih =>
    intro hc k hk
    cases rest with
    | nil => simp at hk
    | cons b rest2 =>
      rcases List.chain'_cons.mp hc with ⟨hab, hc2⟩
      cases k with
      | zero => simpa using hab
      | succ k2 =>
        have hk2 : k2 + 1 < (b :: rest2).length := by
          simp only [List.length_cons] at hk ⊢
          omega
        have := ih hc2 k2 hk2
        simpa [List.getD_cons_succ] using this

/-- C6: adding a fresh wallpaper (file present, grown cache within both
caps, id unused) stores a record with `use_count = 1` and exactly one usage
event; after any `k ≤ N` of `N` subsequent `MarkAsUsed` calls the record has
`use_count = 1 + k` and exactly `1 + k` usage events, its `last_used` is the
`k`-th clock reading, and under a monotonic clock those readings (hence the
successive `last_used` values) strictly increase. -/
theorem c6_useCount_and_events (s : CacheState) (fs : Fs)
    (url fp cat pur : String) (bytes : List Nat) (t0 : Nat) (ts : List Nat)
    (s1 : CacheState) (fs1 : Fs)
    (hfile : List.lookup fp fs = some bytes)
    (hcount : s.wallpapers.length + 1 ≤ MaxCacheSize)
    (hsize : (totalSize s : Int) + bytes.length ≤ maxCacheBytes)
    (hfresh : eventsCount s (GenerateID url) = 0)
    (hadd : AddWallpaper s fs url fp cat pur t0 = .ok (s1, fs1))
    (hmono : List.Chain' (· < ·) (t0 :: ts)) :
    (∃ r, lookupWallpaper s1 (GenerateID url) = some r ∧ r.useCount = 1 ∧
       r.lastUsed = t0 ∧ eventsCount s1 (GenerateID url) = 1) ∧
    (∀ k, k ≤ ts.length →
      ∃ sk rk, markSeq s1 (GenerateID url) (ts.take k) = .ok sk ∧
        lookupWallpaper sk (GenerateID url) = some rk ∧
        rk.useCount = 1 + k ∧ eventsCount sk (GenerateID url) = 1 + k ∧
        rk.lastUsed = (t0 :: ts).getD k 0) ∧
    (∀ k, k + 1 ≤ ts.length → (t0 :: ts).getD k 0 < (t0 :: ts).getD (k + 1) 0) := by
  obtain ⟨hs1, hfs1, hany⟩ := addWallpaper_ok hfile hcount hsize hadd
  have hprefix : s.wallpapers.find? (fun w => w.id == GenerateID url) = none := by
    rw [List.find?_eq_none]
    intro w hw
    have := List.any_eq_false.mp hany w hw
    simpa using this
  have hlook1 : lookupWallpaper s1 (GenerateID url)
      = some (insertedRow url fp cat pur bytes t0) := by
    rw [hs1]
    unfold lookupWallpaper
    rw [find?_append_none hprefix]
    simp [List.find?, insertedRow]
  have hev1 : eventsCount s1 (GenerateID url) = 1 := by
    rw [hs1]
    have hfresh2 := hfresh
    simp only [eventsCount] at hfresh2 ⊢
    simp [List.filter_append, hfresh2]
  refine ⟨⟨insertedRow url fp cat pur bytes t0, hlook1, rfl, rfl, hev1⟩, ?_, ?_⟩
  · intro k hk
    obtain ⟨sk, hms, hlk, hek⟩ := markSeq_ok (ts.take k) s1 _ hlook1
    have hlen : (ts.take k).length = k := by
      rw [List.length_take]
      omega
    refine ⟨sk, _, hms, hlk, ?_, ?_, ?_⟩
    · show (insertedRow url fp cat pur bytes t0).useCount + (ts.take k).length = 1 + k
      simp [insertedRow, hlen]
    · simp [hek, hev1, hlen]
    · show (ts.take k).getLastD (insertedRow url fp cat pur bytes t0).lastUsed
        = (t0 :: ts).getD k 0
      exact getLastD_take_eq_getD k ts t0 hk
  · intro k hk
    exact chain_lt_getD (t0 :: ts) hmono k (by simp only [List.length_cons]; omega)

/-- C6 (witness): adding one wallpaper at time 1 and marking it used at
times 2 and 3 yields the claimed counters at a fully concrete input. -/
theorem c6_useCount_and_events_witness :
    (∃ r, lookupWallpaper c6S1 (GenerateID "u") = some r ∧ r.useCount = 1 ∧
       r.lastUsed = 1 ∧ eventsCount c6S1 (GenerateID "u") = 1) ∧
    (∀ k, k ≤ ([2, 3] : List Nat).length →
      ∃ sk rk, markSeq c6S1 (GenerateID "u") (([2, 3] : List Nat).take k) = .ok sk ∧
        lookupWallpaper sk (GenerateID "u") = some rk ∧
        rk.useCount = 1 + k ∧ eventsCount sk (GenerateID "u") = 1 + k ∧
        rk.lastUsed = ((1 : Nat) :: [2, 3]).getD k 0) ∧
    (∀ k, k + 1 ≤ ([2, 3] : List Nat).length →
      ((1 : Nat) :: [2, 3]).getD k 0 < ((1 : Nat) :: [2, 3]).getD (k + 1) 0) :=
  c6_useCount_and_events emptyCache c6File "u" "p" "010" "110" [5] 1 [2, 3] c6S1 c6File
    (by decide) (by decide) (by decide) (by decide) (by decide)
    (by simp [List.chain'_cons])

/-- C8: the digest is a function of the file bytes alone (hashing the same
bytes anywhere yields the same digest), and after adding a file whose digest
no existing record carries, `FindDuplicate` of that digest returns the freshly
added record (its file still being present), so a second add of the same bytes
is detected as a duplicate of the first. -/
theorem c8_findDuplicate_roundtrip (s : CacheState) (fs : Fs)
    (url fp cat pur : String) (bytes : List Nat) (t : Nat)
    (s1 : CacheState) (fs1 : Fs)
    (hfile : List.lookup fp fs = some bytes)
    (hcount : s.wallpapers.length + 1 ≤ MaxCacheSize)
    (hsize : (totalSize s : Int) + bytes.length ≤ maxCacheBytes)
    (hnodup : ∀ w ∈ s.wallpapers, w.hash ≠ hashBytes bytes)
    (hadd : AddWallpaper s fs url fp cat pur t = .ok (s1, fs1)) :
    (∀ (fs2 : Fs) (p2 : String), List.lookup p2 fs2 = some bytes →
      CalculateFileHash fs2 p2 = CalculateFileHash fs fp) ∧
    ∃ m, FindDuplicate s1 fs1 (hashBytes bytes) = some m ∧
      m.w.id = GenerateID url ∧ m.w.hash = hashBytes bytes ∧ m.w.path = fp := by
  obtain ⟨hs1, hfs1, hany⟩ := addWallpaper_ok hfile hcount hsize hadd
  constructor
  · intro fs2 p2 h2
    unfold CalculateFileHash
    rw [h2, hfile]
  · rw [hfs1]
    have hpre : s.wallpapers.find? (fun w => w.hash == hashBytes bytes) = none := by
      rw [List.find?_eq_none]
      intro w hw
      simpa using hnodup w hw
    have hfind : s1.wallpapers.find? (fun w => w.hash == hashBytes bytes)
        = some (insertedRow url fp cat pur bytes t) := by
      rw [hs1]
      rw [find?_append_none hpre]
      simp [List.find?, insertedRow]
    refine ⟨⟨insertedRow url fp cat pur bytes t,
             getTags s1 (insertedRow url fp cat pur bytes t).id⟩, ?_, rfl, rfl, rfl⟩
    unfold FindDuplicate
    rw [hfind]
    have hex : fileExists fs (insertedRow url fp cat pur bytes t).path = true := by
      simp [fileExists, insertedRow, hfile]
    simp [hex]

/-- C8 (witness): the round-trip at the concrete one-file scenario. -/
theorem c8_findDuplicate_roundtrip_witness :
    ((∀ (fs2 : Fs) (p2 : String), List.lookup p2 fs2 = some [5] →
      CalculateFileHash fs2 p2 = CalculateFileHash c6File "p") ∧
    ∃ m, FindDuplicate c6S1 c6File (hashBytes [5]) = some m ∧
      m.w.id = GenerateID "u" ∧ m.w.hash = hashBytes [5] ∧ m.w.path = "p") :=
  c8_findDuplicate_roundtrip emptyCache c6File "u" "p" "010" "110" [5] 1 c6S1 c6File
    (by decide) (by decide) (by decide) (by decide) (by decide)

/-- The eviction loop deletes exactly the prefix of the candidate list whose
removal first brings both running counters to their targets (or the whole
list), and every single removal happens only while a counter is still above
its target. -/
theorem evictLoop_spec :
    ∀ (v : List WallpaperRow) (s : CacheState) (fs : Fs) (c z : Int),
      ∃ k, k ≤ v.length ∧
        (evictLoop v (s, fs) c z).1 = deleteAll s (v.take k) ∧
        (∀ j, j < k → c - j > targetCount ∨ z - sumSizes (v.take j) > targetSize) ∧
        (k = v.length ∨ (c - k ≤ targetCount ∧ z - sumSizes (v.take k) ≤ targetSize)) := by
  intro v
  induction v with
  | nil =>
    intro s fs c z
    exact ⟨0, Nat.le_refl 0, rfl, fun j hj => absurd hj (by omega), Or.inl rfl⟩
  | cons r rest ih =>
    intro s fs c z
    by_cases hcond : c > targetCount ∨ z > targetSize
    · obtain ⟨k', hk'le, hres, hjust, hstop⟩ :=
        ih (deleteWallpaper s r.id) (removeFile fs r.path) (c - 1) (z - r.size)
      refine ⟨k' + 1, by simp only [List.length_cons]; omega, ?_, ?_, ?_⟩
      · unfold evictLoop
        rw [if_pos hcond, hres]
        simp [deleteAll, List.take_succ_cons]
      · intro j hj
        cases j with
        | zero =>
          have : sumSizes ((r :: rest).take 0) = 0 := rfl
          rw [this]
          simpa using hcond
        | succ j2 =>
          have hsum : sumSizes ((r :: rest).take (j2 + 1))
              = (r.size : Int) + sumSizes (rest.take j2) := by
            simp [sumSizes, List.take_succ_cons]
          rcases hjust j2 (by omega) with h1 | h2
          · left
            omega
          · right
            rw [hsum]
            omega
      · rcases hstop with he | hb
        · left
          simp [he]
        · right
          have hsum : sumSizes ((r :: rest).take (k' + 1))
              = (r.size : Int) + sumSizes (rest.take k') := by
            simp [sumSizes, List.take_succ_cons]
          rw [hsum]
          exact ⟨by omega, by omega⟩
    · refine ⟨0, by omega, ?_, fun j hj => absurd hj (by omega), Or.inr ?_⟩
      · unfold evictLoop
        rw [if_neg hcond]
        rfl
      · have : sumSizes ((r :: rest).take 0) = 0 := rfl
        rw [this]
        push_neg at hcond
        exact ⟨by omega, by omega⟩

/-- Deleting by the id of a row of a table with unique ids drops exactly that
row: one fewer row and its size removed from the sum. -/
theorem filter_ne_length_sum {r : WallpaperRow} :
    ∀ (l : List WallpaperRow), (l.map (fun w => w.id)).Nodup → r ∈ l →
      (l.filter (fun w => w.id != r.id)).length + 1 = l.length ∧
      sumSizes (l.filter (fun w => w.id != r.id)) + (r.size : Int) = sumSizes l := by
  intro l
  induction l with
  | nil =>
    intro _ h
    simp at h
  | cons x xs ih =>
    intro hnd hr
    rw [List.map_cons, List.nodup_cons] at hnd
    obtain ⟨hx_notin, hnd'⟩ := hnd
    by_cases hxr : x.id = r.id
    · have hrx : r = x := by
        rcases List.mem_cons.mp hr with h | h
        · exact h
        · exact absurd (by rw [hxr]; exact List.mem_map_of_mem (fun w => w.id) h) hx_notin
      subst hrx
      have hxs : xs.filter (fun w => w.id != r.id) = xs := by
        apply List.filter_eq_self.mpr
        intro w hw
        have hne : w.id ≠ r.id := by
          intro hc
          apply hx_notin
          rw [hxr, ← hc]
          exact List.mem_map_of_mem (fun w => w.id) hw
        simpa using hne
      have hhead : (r.id != r.id) = false := by simp
      rw [List.filter_cons, hhead]
      constructor
      · simp [hxs]
      · simp [hxs, sumSizes, List.map_cons, List.sum_cons]
        omega
    · have hr' : r ∈ xs := by
        rcases List.mem_cons.mp hr with h | h
        · exact absurd (by rw [h]) hxr
        · exact h
      obtain ⟨ihl, ihs⟩ := ih hnd' hr'
      have hhead : (x.id != r.id) = true := by simpa using hxr
      rw [List.filter_cons, hhead]
      constructor
      · simp only [if_true, List.length_cons]
        omega
      · simp only [if_true, sumSizes, List.map_cons, List.sum_cons] at ihs ⊢
        omega

/-- The `Nat` byte total of a row list, cast to `int64`. -/
theorem cast_sum_sizes : ∀ l : List WallpaperRow,
    (((l.map (fun w => w.size)).sum : Nat) : Int) = sumSizes l := by
  intro l
  induction l with
  | nil => rfl
  | cons x xs ih =>
    rw [List.map_cons, List.sum_cons, Nat.cast_add, ih]
    simp [sumSizes]

/-- Deleting a list of distinct rows of a unique-id table removes exactly
those rows from the count and the size total, and keeps the ids unique. -/
theorem deleteAll_totals :
    ∀ (v : List WallpaperRow) (s : CacheState),
      UniqueIds s → (∀ r ∈ v, r ∈ s.wallpapers) → (v.map (fun r => r.id)).Nodup →
      totalCount (deleteAll s v) + v.length = totalCount s ∧
      sumSizes (deleteAll s v).wallpapers + sumSizes v = sumSizes s.wallpapers ∧
      UniqueIds (deleteAll s v) := by
  intro v
  induction v with
  | nil =>
    intro s h1 _ _
    exact ⟨by simp [deleteAll, totalCount], by simp [deleteAll, sumSizes], h1⟩
  | cons r rest ih =>
    intro s hu hmem hnd
    have hr : r ∈ s.wallpapers := hmem r (by simp)
    have humap : (s.wallpapers.map (fun w => w.id)).Nodup := hu
    obtain ⟨hlen, hsum⟩ := filter_ne_length_sum s.wallpapers humap hr
    have hu' : UniqueIds (deleteWallpaper s r.id) :=
      List.Nodup.sublist (List.Sublist.map _ (List.filter_sublist _)) humap
    have hndcons := hnd
    rw [List.map_cons, List.nodup_cons] at hndcons
    obtain ⟨hrid_notin, hnd'⟩ := hndcons
    have hmem' : ∀ q ∈ rest, q ∈ (deleteWallpaper s r.id).wallpapers := by
      intro q hq
      have hql : q ∈ s.wallpapers := hmem q (by simp [hq])
      have hqid : q.id ≠ r.id := by
        intro hc
        apply hrid_notin
        rw [← hc]
        exact List.mem_map_of_mem (fun w => w.id) hq
      exact List.mem_filter.mpr ⟨hql, by simpa using hqid⟩
    obtain ⟨ihc, ihz, ihu⟩ := ih (deleteWallpaper s r.id) hu' hmem' hnd'
    have hstep : deleteAll s (r :: rest) = deleteAll (deleteWallpaper s r.id) rest := rfl
    have h2 : totalCount (deleteWallpaper s r.id) + 1 = totalCount s := hlen
    have h3 : sumSizes (deleteWallpaper s r.id).wallpapers + (r.size : Int)
        = sumSizes s.wallpapers := hsum
    have h4 : sumSizes (r :: rest) = (r.size : Int) + sumSizes rest := by
      simp [sumSizes, List.map_cons, List.sum_cons]
    refine ⟨?_, ?_, by rw [hstep]; exact ihu⟩
    · rw [hstep]
      simp only [List.length_cons]
      omega
    · rw [hstep, h4]
      omega

/-- A row whose id no victim carries survives the whole deletion fold. -/
theorem mem_deleteAll {w : WallpaperRow} :
    ∀ (v : List WallpaperRow) (s : CacheState),
      w ∈ s.wallpapers → (∀ r ∈ v, r.id ≠ w.id) → w ∈ (deleteAll s v).wallpapers := by
  intro v
  induction v with
  | nil =>
    intro s hw _
    exact hw
  | cons r rest ih =>
    intro s hw hne
    have hwr : w.id ≠ r.id := fun hc => hne r (by simp) hc.symm
    have hstep : deleteAll s (r :: rest) = deleteAll (deleteWallpaper s r.id) rest := rfl
    rw [hstep]
    apply ih
    · exact List.mem_filter.mpr ⟨hw, by simpa using hwr⟩
    · exact fun q hq => hne q (by simp [hq])

/-- Every eviction candidate is a non-favorite row of the table. -/
theorem evictionCandidates_mem {s : CacheState} {r : WallpaperRow}
    (hr : r ∈ evictionCandidates s) : r ∈ s.wallpapers ∧ r.isFavorite = false := by
  have hm := (List.perm_insertionSort _ _).mem_iff.mp hr
  refine ⟨List.mem_of_mem_filter hm, ?_⟩
  have := (List.mem_filter.mp hm).2
  simpa using this

/-- Under unique ids the candidate list carries unique ids. -/
theorem evictionCandidates_nodup {s : CacheState} (hu : UniqueIds s) :
    ((evictionCandidates s).map (fun r => r.id)).Nodup := by
  have h1 : ((s.wallpapers.filter (fun w => !w.isFavorite)).map (fun r => r.id)).Nodup :=
    List.Nodup.sublist (List.Sublist.map _ (List.filter_sublist _)) hu
  exact ((List.perm_insertionSort _ _).map _).nodup_iff.mpr h1

/-- C4: `EnforceCacheLimits` is a no-op when the cache is within both the
count cap and the byte cap; otherwise it removes non-favorite rows in
ascending `last_used` order one at a time — each removal happening only while
the count or the size still exceeds its 90% target — and stops as soon as
both are at or below their targets (or the non-favorites run out), so it
removes exactly enough entries and never more. -/
theorem c4_enforceCacheLimits (s : CacheState) (fs : Fs) (hu : UniqueIds s) :
    ((totalCount s ≤ MaxCacheSize ∧ (totalSize s : Int) ≤ maxCacheBytes) →
      EnforceCacheLimits s fs = (s, fs)) ∧
    (¬(totalCount s ≤ MaxCacheSize ∧ (totalSize s : Int) ≤ maxCacheBytes) →
      (evictionCandidates s).Sorted (fun a b => a.lastUsed ≤ b.lastUsed) ∧
      (∀ r ∈ evictionCandidates s, r.isFavorite = false) ∧
      ∃ k, k ≤ (evictionCandidates s).length ∧
        (EnforceCacheLimits s fs).1 = deleteAll s ((evictionCandidates s).take k) ∧
        totalCount (EnforceCacheLimits s fs).1 + k = totalCount s ∧
        ((totalSize (EnforceCacheLimits s fs).1 : Int)
          = (totalSize s : Int) - sumSizes ((evictionCandidates s).take k)) ∧
        (∀ j, j < k → (totalCount s : Int) - j > targetCount ∨
          (totalSize s : Int) - sumSizes ((evictionCandidates s).take j) > targetSize) ∧
        (k = (evictionCandidates s).length ∨
          ((totalCount s : Int) - k ≤ targetCount ∧
           (totalSize s : Int) - sumSizes ((evictionCandidates s).take k) ≤ targetSize))) := by
  constructor
  · exact enforce_within fs
  · intro hover
    refine ⟨List.sorted_insertionSort _ _, fun r hr => (evictionCandidates_mem hr).2, ?_⟩
    obtain ⟨k, hkle, hres, hjust, hstop⟩ :=
      evictLoop_spec (evictionCandidates s) s fs (totalCount s : Int) (totalSize s : Int)
    have hE : EnforceCacheLimits s fs
        = evictLoop (evictionCandidates s) (s, fs) (totalCount s : Int) (totalSize s : Int) := by
      unfold EnforceCacheLimits
      rw [if_neg hover]
    have hlen : ((evictionCandidates s).take k).length = k := by
      rw [List.length_take]
      omega
    have htake_mem : ∀ r ∈ (evictionCandidates s).take k, r ∈ s.wallpapers :=
      fun r hr => (evictionCandidates_mem (List.mem_of_mem_take hr)).1
    have htake_nd : (((evictionCandidates s).take k).map (fun r => r.id)).Nodup :=
      List.Nodup.sublist (List.Sublist.map _ (List.take_sublist _ _))
        (evictionCandidates_nodup hu)
    obtain ⟨hcnt, hsz, hu'⟩ :=
      deleteAll_totals ((evictionCandidates s).take k) s hu htake_mem htake_nd
    refine ⟨k, hkle, ?_, ?_, ?_, hjust, hstop⟩
    · rw [hE, hres]
    · rw [hE, hres]
      rw [hlen] at hcnt
      exact hcnt
    · rw [hE, hres]
      have h1 : (totalSize (deleteAll s ((evictionCandidates s).take k)) : Int)
          = sumSizes (deleteAll s ((evictionCandidates s).take k)).wallpapers :=
        cast_sum_sizes _
      have h2 : (totalSize s : Int) = sumSizes s.wallpapers := cast_sum_sizes _
      omega

/-- C5: `EnforceCacheLimits` never removes a favorite: every favorite row
survives the call, and when every row is a favorite the state — in particular
the count — is left unchanged even if the cache is over its caps. -/
theorem c5_eviction_preserves_favorites (s : CacheState) (fs : Fs) (hu : UniqueIds s) :
    (∀ w ∈ s.wallpapers, w.isFavorite = true → w ∈ (EnforceCacheLimits s fs).1.wallpapers) ∧
    ((∀ r ∈ s.wallpapers, r.isFavorite = true) → (EnforceCacheLimits s fs).1 = s) := by
  constructor
  · intro w hw hfav
    unfold EnforceCacheLimits
    split
    · exact hw
    · obtain ⟨k, -, hres, -, -⟩ :=
        evictLoop_spec (evictionCandidates s) s fs (totalCount s : Int) (totalSize s : Int)
    
      rw [hres]
      apply mem_deleteAll _ s hw
      intro r hr hc
      have hrc := evictionCandidates_mem (List.mem_of_mem_take hr)
      have hreq : r = w := List.inj_on_of_nodup_map hu hrc.1 hw hc
      rw [hreq, hfav] at hrc
      exact absurd hrc.2 (by simp)
  · intro hall
    have hnil : evictionCandidates s = [] := by
      unfold evictionCandidates
      have hfe : s.wallpapers.filter (fun w => !w.isFavorite) = [] := by
        rw [List.filter_eq_nil_iff]
        intro w hw
        simp [hall w hw]
      rw [hfe]
      rfl
    unfold EnforceCacheLimits
    split
    · rfl
    · rw [hnil]
      rfl

/-- C4 (witness): the six-gigabyte two-row cache is over the byte cap, and
the theorem instantiates there. -/
theorem c4_enforceCacheLimits_witness :
    UniqueIds evictS ∧
    ((evictionCandidates evictS).Sorted (fun a b => a.lastUsed ≤ b.lastUsed) ∧
     (∀ r ∈ evictionCandidates evictS, r.isFavorite = false) ∧
     ∃ k, k ≤ (evictionCandidates evictS).length ∧
       (EnforceCacheLimits evictS []).1 = deleteAll evictS ((evictionCandidates evictS).take k) ∧
       totalCount (EnforceCacheLimits evictS []).1 + k = totalCount evictS ∧
       ((totalSize (EnforceCacheLimits evictS []).1 : Int)
         = (totalSize evictS : Int) - sumSizes ((evictionCandidates evictS).take k)) ∧
       (∀ j, j < k → (totalCount evictS : Int) - j > targetCount ∨
         (totalSize evictS : Int) - sumSizes ((evictionCandidates evictS).take j) > targetSize) ∧
       (k = (evictionCandidates evictS).length ∨
         ((totalCount evictS : Int) - k ≤ targetCount ∧
          (totalSize evictS : Int) - sumSizes ((evictionCandidates evictS).take k)
            ≤ targetSize))) :=
  ⟨by decide, (c4_enforceCacheLimits evictS [] (by decide)).2 (by decide)⟩

/-- C5 (witness): on the all-favorite over-cap cache the favorite row
survives and the state is unchanged. -/
theorem c5_eviction_preserves_favorites_witness :
    (rowF1 ∈ favS.wallpapers ∧ rowF1.isFavorite = true ∧
     rowF1 ∈ (EnforceCacheLimits favS []).1.wallpapers) ∧
    (EnforceCacheLimits favS []).1 = favS :=
  ⟨⟨by decide, by decide,
    (c5_eviction_preserves_favorites favS [] (by decide)).1 rowF1 (by decide) (by decide)⟩,
   (c5_eviction_preserves_favorites favS [] (by decide)).2 (by decide)⟩
